import Mathlib

attribute [local semireducible] Rat.add Rat.mul Rat.sub Rat.inv Rat.ofScientific

/-
  Verification development for the TinyEKF Python repository
  (src/python/tinyekf/__init__.py).

  The EKF engine stores its state vector and covariance matrices as dense
  2-D numpy arrays of real numbers; we model entries as rationals and arrays
  as a structure carrying the shape and a row-major list of rows.  The
  operations the source uses — elementwise `*`/`+`/`-` with numpy
  broadcasting, `np.dot` (standard matrix product on 2-D arrays), `.T`,
  `np.copy`, `np.eye`, `np.zeros`, `np.linalg.inv` — are each given an
  executable definition below.  `np.linalg.inv` raises LinAlgError exactly
  when the matrix is singular (or not square); over exact rationals this is
  `det = 0`, realised by cofactor expansion.

  `EKF.step` is translated statement by statement, threading the mutable
  `self` fields explicitly; a Python exception mid-body leaves the fields
  assigned so far in place, so the model returns the partially-updated
  state together with the raised error.
-/

namespace TinyEKF

/-- A dense 2-D numpy array: shape plus row-major data (list of rows). -/
structure Arr where
  rows : Nat
  cols : Nat
  data : List (List ℚ)
deriving DecidableEq, Repr

/-- Element read; out-of-range reads pad with 0 (only in-shape entries are
meaningful for arrays built by `mkArr`). -/
def Arr.get (A : Arr) (i j : Nat) : ℚ := (A.data.getD i []).getD j 0

/-- Build an array of the given shape from an entry function. -/
def mkArr (r c : Nat) (f : Nat → Nat → ℚ) : Arr :=
  ⟨r, c, (List.range r).map fun i => (List.range c).map fun j => f i j⟩

/-- Model of np.zeros((r, c)). -/
def npZeros (r c : Nat) : Arr := mkArr r c fun _ _ => 0

/-- Model of np.eye(n): n x n identity. -/
def npEye (n : Nat) : Arr := mkArr n n fun i j => if i = j then 1 else 0

/-- Model of ndarray * scalar: elementwise scaling, shape preserved. -/
def npScalMul (A : Arr) (s : ℚ) : Arr :=
  mkArr A.rows A.cols fun i j => A.get i j * s

/-- Model of np.copy / ndarray.copy on a 2-D array (value copy). -/
def npCopy (A : Arr) : Arr := A

/-- Model of ndarray.T: transpose (as a value; aliasing is modelled
separately for the _Matrix class below). -/
def npT (A : Arr) : Arr := mkArr A.cols A.rows fun i j => A.get j i

/-- Numpy broadcast compatibility of two dimension sizes. -/
def bcompat (a b : Nat) : Prop := a = b ∨ a = 1 ∨ b = 1

instance (a b : Nat) : Decidable (bcompat a b) := by
  unfold bcompat; infer_instance

/-- Index into a possibly-broadcast dimension: a size-1 axis repeats its
single entry. -/
def bidx (d i : Nat) : Nat := if d = 1 then 0 else i

/-- Elementwise binary operation on 2-D arrays with numpy broadcasting;
`none` models the ValueError numpy raises on incompatible shapes. -/
def npBinOp (op : ℚ → ℚ → ℚ) (A B : Arr) : Option Arr :=
  if bcompat A.rows B.rows ∧ bcompat A.cols B.cols then
    some (mkArr (max A.rows B.rows) (max A.cols B.cols) fun i j =>
      op (A.get (bidx A.rows i) (bidx A.cols j))
         (B.get (bidx B.rows i) (bidx B.cols j)))
  else none

/-- Model of ndarray * ndarray: ELEMENTWISE (Hadamard) product with
broadcasting — on numpy ndarrays `*` is not the matrix product. -/
def npMul (A B : Arr) : Option Arr := npBinOp (· * ·) A B

/-- Model of ndarray + ndarray. -/
def npAdd (A B : Arr) : Option Arr := npBinOp (· + ·) A B

/-- Model of ndarray - ndarray. -/
def npSub (A B : Arr) : Option Arr := npBinOp (· - ·) A B

/-- Model of np.dot on 2-D arrays: the standard matrix product; `none`
models the ValueError raised on a dimension mismatch. -/
def npDot (A B : Arr) : Option Arr :=
  if A.cols = B.rows then
    some (mkArr A.rows B.cols fun i j =>
      ((List.range A.cols).map fun k => A.get i k * B.get k j).sum)
  else none

/-- Model of the in-place `a += b`: numpy requires the broadcast result to
keep a's shape (it cannot grow the destination). -/
def npIAdd (A B : Arr) : Option Arr :=
  match npAdd A B with
  | some r => if A.rows = r.rows ∧ A.cols = r.cols then some r else none
  | none => none

/-- Model of np.array(z) for a length-m tuple of reals, in the only position
the source uses it (left operand of a 2-D subtraction): a 1-D array of
length m broadcasts as a single row. -/
def zRow (z : List ℚ) : Arr := ⟨1, z.length, [z]⟩

/-- Determinant by cofactor expansion along the first row; the fuel
argument (the row count) keeps the recursion structural. -/
def detAux : Nat → List (List ℚ) → ℚ
  | 0, _ => 1
  | Nat.succ n, m =>
    match m with
    | [] => 1
    | r :: rs =>
      (((List.range r.length).map fun j =>
        (-1 : ℚ) ^ j * r.getD j 0 *
          detAux n (rs.map fun row => row.eraseIdx j))).sum

/-- Determinant of a square matrix given as a list of rows. -/
def detM (m : List (List ℚ)) : ℚ := detAux m.length m

/-- Minor: delete row i and column j. -/
def minorM (m : List (List ℚ)) (i j : Nat) : List (List ℚ) :=
  (m.eraseIdx i).map fun row => row.eraseIdx j

/-- Model of np.linalg.inv: the exact inverse via the adjugate; `none`
models the LinAlgError raised when the matrix is singular or not square. -/
def matInv (A : Arr) : Option Arr :=
  if A.rows = A.cols then
    if detM A.data = 0 then none
    else some (mkArr A.rows A.cols fun i j =>
      (-1 : ℚ) ^ (i + j) * detM (minorM A.data j i) / detM A.data)
  else none

/-- The Python exceptions the engine can raise. -/
inductive PyErr where
  | valueError
  | linAlgError
deriving DecidableEq, Repr

/-- The mutable fields of an EKF instance (source lines 33-49). -/
structure EKFState where
  xx : Arr
  PP_pre : Option Arr
  PP_post : Arr
  FF : Arr
  HH : Arr
  QQ : Arr
  RR : Arr
  II : Arr
deriving DecidableEq, Repr

/-- EKF.__init__ (source lines 26-49): numpy raises ValueError on a negative
dimension; otherwise every field is filled in with no validation of n, m or
of the shapes the Jacobian callbacks return.  gF and gH are the
implementing class's getF and getH. -/
def ekfInit (n m : Int) (pval qval rval : ℚ) (gF gH : Arr → Arr) :
    Except PyErr EKFState :=
  if n < 0 ∨ m < 0 then Except.error PyErr.valueError
  else
    Except.ok
      { xx := npZeros n.toNat 1
        PP_pre := none
        PP_post := npScalMul (npEye n.toNat) pval
        FF := gF (npZeros n.toNat 1)
        HH := gH (npZeros n.toNat 1)
        QQ := npScalMul (npEye n.toNat) qval
        RR := npScalMul (npEye m.toNat) rval
        II := npEye n.toNat }

/-- Source line 63: self.PP_pre = self.FF * self.PP_post * self.FF.T +
self.QQ — elementwise products with broadcasting, then elementwise sum. -/
def ekfPPre (FF PPpost QQ : Arr) : Option Arr :=
  match npMul FF PPpost with
  | none => none
  | some a =>
    match npMul a (npT FF) with
    | none => none
    | some b => npAdd b QQ

/-- Source line 71: GG = np.dot(self.PP_pre * self.HH.T,
np.linalg.inv(self.HH * self.PP_pre * self.HH.T + self.RR)) — the inner
products are elementwise with broadcasting; only the outer np.dot is a
matrix product.  The error distinguishes a broadcast ValueError from the
LinAlgError of a singular inverse. -/
def ekfGain (HH PPpre RR : Arr) : Except PyErr Arr :=
  match npMul PPpre (npT HH) with
  | none => Except.error PyErr.valueError
  | some t1 =>
    match npMul HH PPpre with
    | none => Except.error PyErr.valueError
    | some t2 =>
      match npMul t2 (npT HH) with
      | none => Except.error PyErr.valueError
      | some t3 =>
        match npAdd t3 RR with
        | none => Except.error PyErr.valueError
        | some t4 =>
          match matInv t4 with
          | none => Except.error PyErr.linAlgError
          | some si =>
            match npDot t1 si with
            | none => Except.error PyErr.valueError
            | some g => Except.ok g

/-- Source line 74: self.xx += np.dot(GG, (np.array(z) - h(self.xx).T).T);
hx is the value h returned on the predicted state. -/
def ekfCorrect (GG x1 hx : Arr) (z : List ℚ) : Option Arr :=
  match npSub (zRow z) (npT hx) with
  | none => none
  | some d =>
    match npDot GG (npT d) with
    | none => none
    | some gd => npIAdd x1 gd

/-- Source line 77: self.PP_post = np.dot(self.II - np.dot(GG, self.HH),
self.PP_pre) — all standard matrix products. -/
def ekfPostCov (GG HH II PPpre : Arr) : Option Arr :=
  match npDot GG HH with
  | none => none
  | some u =>
    match npSub II u with
    | none => none
    | some v => npDot v PPpre

/-- EKF.step (source lines 51-80), with the mutable self fields threaded
explicitly.  Each assignment happens in source order; when an operation
raises, the fields already assigned keep their new values (Python leaves
self mutated) and the error is returned alongside the state. -/
def ekfStep (f h : Arr → Arr) (s : EKFState) (z : List ℚ) :
    EKFState × Except PyErr Arr :=
  match ekfPPre s.FF s.PP_post s.QQ with
  | none => ({ s with xx := f s.xx }, Except.error PyErr.valueError)
  | some ppre =>
    match ekfGain s.HH ppre s.RR with
    | Except.error e =>
      ({ s with xx := f s.xx, PP_pre := some ppre, PP_post := npCopy ppre },
       Except.error e)
    | Except.ok GG =>
      match ekfCorrect GG (f s.xx) (h (f s.xx)) z with
      | none =>
        ({ s with xx := f s.xx, PP_pre := some ppre, PP_post := npCopy ppre },
         Except.error PyErr.valueError)
      | some x2 =>
        match ekfPostCov GG s.HH s.II ppre with
        | none =>
          ({ s with xx := x2, PP_pre := some ppre, PP_post := npCopy ppre },
           Except.error PyErr.valueError)
        | some pnew =>
          ({ s with xx := x2, PP_pre := some ppre, PP_post := pnew },
           Except.ok x2)

/-- Spec formula (section 4.2, Predict): P_pre = F · P_post · Fᵗ + Q with
standard matrix products.  Stated from the spec's words, for comparison
with the source's `ekfPPre`. -/
def specPPre (FF PPpost QQ : Arr) : Option Arr :=
  match npDot FF PPpost with
  | none => none
  | some a =>
    match npDot a (npT FF) with
    | none => none
    | some b => npAdd b QQ

/-- Spec formula (section 4.2, Update): S = H · P_pre · Hᵗ + R with
standard matrix products.  Stated from the spec's words. -/
def specSmat (HH PPpre RR : Arr) : Option Arr :=
  match npDot HH PPpre with
  | none => none
  | some a =>
    match npDot a (npT HH) with
    | none => none
    | some b => npAdd b RR

/-- Spec formula (section 4.2, Update): G = P_pre · Hᵗ · S⁻¹ with standard
matrix products.  Stated from the spec's words, for comparison with the
source's `ekfGain`. -/
def specGain (HH PPpre RR : Arr) : Option Arr :=
  match specSmat HH PPpre RR with
  | none => none
  | some smat =>
    match matInv smat with
    | none => none
    | some si =>
      match npDot PPpre (npT HH) with
      | none => none
      | some pht => npDot pht si

/-- Spec formula: the innovation z − h(x) as an m×1 column vector. -/
def specInnov (z : List ℚ) (hx : Arr) : Arr :=
  mkArr z.length 1 fun i _ => z.getD i 0 - hx.get i 0

/-- Spec formula (section 4.2, Construction): a k×k diagonal matrix with a
constant value c on the diagonal (c · I_k).  Stated from the spec's words,
for comparison with the source's np.eye(k) * c. -/
def specDiagMat (k : Nat) (c : ℚ) : Arr :=
  mkArr k k fun i j => if i = j then c else 0

/-- The outcome of _Matrix.invert (source lines 175-184): on any exception
from np.linalg.inv it prints and calls exit(0), terminating the process. -/
inductive InvResult where
  | ok (a : Arr)
  | processExit
deriving DecidableEq, Repr

/-- _Matrix.invert (source lines 175-184): np.linalg.inv wrapped in a
try/except whose handler prints the matrix and the error and then exits
the whole process with status 0. -/
def mInvert (A : Arr) : InvResult :=
  match matInv A with
  | some b => InvResult.ok b
  | none => InvResult.processExit

/-
  Heap model for the _Matrix class.  A _Matrix wraps a numpy buffer;
  `transpose` (source lines 169-173) sets new.data = self.data.T, a numpy
  VIEW over the same buffer, so we model a store of buffers and matrices as
  references into it carrying a transposed flag.  Element access
  (source lines 151-157) delegates to numpy indexing, which resolves
  negative indices from the end of the axis and raises IndexError only when
  the resolved index is out of range.
-/

/-- A numpy buffer: allocation shape plus row-major contents. -/
structure NpBuf where
  rows : Nat
  cols : Nat
  data : List ℚ
deriving DecidableEq, Repr

/-- A _Matrix value: a reference to a buffer, possibly viewed transposed. -/
structure MatRef where
  buf : Nat
  trans : Bool
deriving DecidableEq, Repr

/-- The store of live numpy buffers. -/
def Store : Type := List NpBuf

/-- The buffer a matrix refers to. -/
def bufOf (st : Store) (m : MatRef) : NpBuf := st.getD m.buf ⟨0, 0, []⟩

/-- Logical row count of a matrix (swapped when viewed transposed). -/
def mRows (st : Store) (m : MatRef) : Nat :=
  if m.trans then (bufOf st m).cols else (bufOf st m).rows

/-- Logical column count of a matrix. -/
def mCols (st : Store) (m : MatRef) : Nat :=
  if m.trans then (bufOf st m).rows else (bufOf st m).cols

/-- Python index resolution on one axis: a negative index counts from the
end; `none` models IndexError. -/
def pyIdx (dim : Nat) (i : Int) : Option Nat :=
  let k : Int := if i < 0 then i + dim else i
  if 0 ≤ k ∧ k < dim then some k.toNat else none

/-- Position in the underlying row-major buffer of logical element (i, j). -/
def bufPos (b : NpBuf) (trans : Bool) (ii jj : Nat) : Nat :=
  if trans then jj * b.cols + ii else ii * b.cols + jj

/-- _Matrix.__getitem__ at a (row, column) key (source lines 155-157). -/
def mGet (st : Store) (m : MatRef) (i j : Int) : Option ℚ :=
  match pyIdx (mRows st m) i, pyIdx (mCols st m) j with
  | some ii, some jj =>
    some ((bufOf st m).data.getD (bufPos (bufOf st m) m.trans ii jj) 0)
  | _, _ => none

/-- _Matrix.__setitem__ at a (row, column) key (source lines 151-153):
writes through the view into the shared buffer. -/
def mSet (st : Store) (m : MatRef) (i j : Int) (v : ℚ) : Option Store :=
  match pyIdx (mRows st m) i, pyIdx (mCols st m) j with
  | some ii, some jj =>
    let b := bufOf st m
    some (st.set m.buf { b with data := b.data.set (bufPos b m.trans ii jj) v })
  | _, _ => none

/-- _Matrix.transpose (source lines 169-173): a new _Matrix whose data is a
transposed numpy view of the SAME buffer. -/
def mTranspose (m : MatRef) : MatRef := ⟨m.buf, !m.trans⟩

/-- A buffer is well formed when its data has exactly rows*cols entries. -/
def bufWF (b : NpBuf) : Prop := b.data.length = b.rows * b.cols

/-- Concrete engine state for the predict-phase analysis: n = m = 2,
F = [[1,1],[0,1]], P_post = I, Q = 0, H = I, R = I. -/
def exPredState : EKFState :=
  { xx := npZeros 2 1
    PP_pre := none
    PP_post := npEye 2
    FF := Arr.mk 2 2 [[1, 1], [0, 1]]
    HH := npEye 2
    QQ := npZeros 2 2
    RR := npEye 2
    II := npEye 2 }

/-- Concrete engine state exercising a failing update: n = m = 1, H = 0 and
R = 0 make the inverted matrix singular; Q = 3 makes the covariance
prediction visible. -/
def exFailState : EKFState :=
  { xx := Arr.mk 1 1 [[0]]
    PP_pre := none
    PP_post := Arr.mk 1 1 [[1]]
    FF := Arr.mk 1 1 [[1]]
    HH := Arr.mk 1 1 [[0]]
    QQ := Arr.mk 1 1 [[3]]
    RR := Arr.mk 1 1 [[0]]
    II := Arr.mk 1 1 [[1]] }

/-- Concrete engine state for a fully successful step: n = m = 1 with
F = H = [1], P_post = 1, Q = 0, R = 1. -/
def exRunState : EKFState :=
  { xx := Arr.mk 1 1 [[0]]
    PP_pre := none
    PP_post := Arr.mk 1 1 [[1]]
    FF := Arr.mk 1 1 [[1]]
    HH := Arr.mk 1 1 [[1]]
    QQ := Arr.mk 1 1 [[0]]
    RR := Arr.mk 1 1 [[1]]
    II := Arr.mk 1 1 [[1]] }

/-- The state `exRunState` reaches after step([4]). -/
def exRunResult : EKFState :=
  { xx := Arr.mk 1 1 [[2]]
    PP_pre := some (Arr.mk 1 1 [[1]])
    PP_post := Arr.mk 1 1 [[1/2]]
    FF := Arr.mk 1 1 [[1]]
    HH := Arr.mk 1 1 [[1]]
    QQ := Arr.mk 1 1 [[0]]
    RR := Arr.mk 1 1 [[1]]
    II := Arr.mk 1 1 [[1]] }

/-- The engine EKF(2, 1, 0.1, 0.0001, 0.1) constructs when getF returns I₂
and getH returns the 1×2 zero matrix. -/
def exInitState : EKFState :=
  { xx := npZeros 2 1
    PP_pre := none
    PP_post := npScalMul (npEye 2) (1/10)
    FF := npEye 2
    HH := Arr.mk 1 2 [[0, 0]]
    QQ := npScalMul (npEye 2) (1/10000)
    RR := npScalMul (npEye 1) (1/10)
    II := npEye 2 }

/-- A concrete store holding one 2×3 buffer. -/
def exStore : Store := [⟨2, 3, [1, 2, 3, 4, 5, 6]⟩]

/-- A _Matrix over the buffer of `exStore`, not transposed. -/
def exMat : MatRef := ⟨0, false⟩

/- ===================== helper lemmas ===================== -/

theorem getD_range_map {α : Type} (g : Nat → α) (r i : Nat) (d : α)
    (h : i < r) : (((List.range r).map g).getD i d) = g i := by
  rw [List.getD_eq_getElem?_getD, List.getElem?_map, List.getElem?_range h]
  rfl

@[simp] theorem mkArr_rows (r c : Nat) (f : Nat → Nat → ℚ) :
    (mkArr r c f).rows = r := rfl

@[simp] theorem mkArr_cols (r c : Nat) (f : Nat → Nat → ℚ) :
    (mkArr r c f).cols = c := rfl

theorem mkArr_get (r c : Nat) (f : Nat → Nat → ℚ) (i j : Nat)
    (hi : i < r) (hj : j < c) : (mkArr r c f).get i j = f i j := by
  unfold mkArr Arr.get
  rw [getD_range_map _ _ _ _ hi, getD_range_map _ _ _ _ hj]

theorem mkArr_ext {r c : Nat} {f g : Nat → Nat → ℚ}
    (h : ∀ i, i < r → ∀ j, j < c → f i j = g i j) :
    mkArr r c f = mkArr r c g := by
  unfold mkArr
  congr 1
  apply List.map_congr_left
  intro i hi
  apply List.map_congr_left
  intro j hj
  exact h i (List.mem_range.mp hi) j (List.mem_range.mp hj)

theorem bidx_self {d i : Nat} (h : i < d) : bidx d i = i := by
  unfold bidx; split <;> omega

theorem getD_set_self {α : Type} :
    ∀ (l : List α) (n : Nat) (a d : α), n < l.length →
      (l.set n a).getD n d = a := by
  intro l
  induction l with
  | nil => intro n a d h; simp at h
  | cons x xs ih =>
    intro n a d h
    cases n with
    | zero => rfl
    | succ k =>
      have : k < xs.length := by simpa using h
      simpa using ih k a d this

theorem pos_lt_total {i j r c : Nat} (hi : i < r) (hj : j < c) :
    i * c + j < r * c := by
  have h2 : (i + 1) * c ≤ r * c := Nat.mul_le_mul_right c hi
  have h3 : (i + 1) * c = i * c + c := by ring
  omega

theorem pyIdx_neg {d : Nat} {i : Int} (h1 : -(d : Int) ≤ i) (h2 : i < 0) :
    pyIdx d i = some (i + d).toNat ∧ pyIdx d (i + d) = some (i + d).toNat := by
  have h3 : ¬ (i + (d : Int) < 0) := by omega
  have h4 : (0 : Int) ≤ i + d ∧ i + d < d := by omega
  constructor
  · simp only [pyIdx, if_pos h2, if_pos h4]
  · simp only [pyIdx, if_neg h3, if_pos h4]

theorem pyIdx_of_lt {d i : Nat} (h : i < d) : pyIdx d (i : Int) = some i := by
  simp only [pyIdx]
  rw [if_neg (show ¬ ((i : Int) < 0) by omega)]
  rw [if_pos (show (0 : Int) ≤ (i : Int) ∧ (i : Int) < d by constructor <;> omega)]
  simp

theorem bidx_zero (d : Nat) : bidx d 0 = 0 := by
  unfold bidx; split <;> rfl

theorem npIAdd_some {A B C : Arr} (h : npIAdd A B = some C) :
    npAdd A B = some C := by
  unfold npIAdd at h
  rcases hAB : npAdd A B with _ | w
  · rw [hAB] at h
    simp at h
  · rw [hAB] at h
    have h2 : (if A.rows = w.rows ∧ A.cols = w.cols then some w else none) =
        some C := h
    by_cases hsh : A.rows = w.rows ∧ A.cols = w.cols
    · rw [if_pos hsh] at h2
      cases h2
      rfl
    · rw [if_neg hsh] at h2
      exact absurd h2 (by simp)

theorem innov_transpose (z : List ℚ) (hx d : Arr)
    (hrw : hx.rows = z.length) (hcw : hx.cols = 1)
    (hd : npSub (zRow z) (npT hx) = some d) :
    npT d = specInnov z hx := by
  unfold npSub npBinOp at hd
  split at hd
  · simp only [Option.some.injEq] at hd
    subst hd
    have h1 : max (zRow z).rows (npT hx).rows = 1 := by
      simp [zRow, npT, hcw]
    have h2 : max (zRow z).cols (npT hx).cols = z.length := by
      simp [zRow, npT, hrw]
    rw [h1, h2]
    show mkArr z.length 1
        (fun i j => (mkArr 1 z.length
          (fun i j => (zRow z).get (bidx (zRow z).rows i) (bidx (zRow z).cols j) -
            (npT hx).get (bidx (npT hx).rows i) (bidx (npT hx).cols j))).get j i) =
      specInnov z hx
    unfold specInnov
    apply mkArr_ext
    intro i hi j hj
    have hj0 : j = 0 := by omega
    subst hj0
    rw [mkArr_get _ _ _ _ _ (by omega) hi]
    simp only [bidx_zero]
    have hbz : bidx (zRow z).cols i = i :=
      bidx_self (show i < (zRow z).cols from hi)
    have hbh : bidx (npT hx).cols i = i := bidx_self (by
      rw [show (npT hx).cols = hx.rows from rfl, hrw]
      exact hi)
    rw [hbz, hbh]
    congr 1
    rw [show npT hx = mkArr hx.cols hx.rows (fun a b => hx.get b a) from rfl,
        mkArr_get _ _ _ _ _ (by rw [hcw]; omega) (by rw [hrw]; exact hi)]
  · exact absurd hd (by simp)

theorem npScalMul_eye (k : Nat) (c : ℚ) :
    npScalMul (npEye k) c = specDiagMat k c := by
  unfold npScalMul npEye specDiagMat
  simp only [mkArr_rows, mkArr_cols]
  apply mkArr_ext
  intro i hi j hj
  rw [mkArr_get _ _ _ _ _ hi hj]
  by_cases h : i = j <;> simp [h]

theorem mGet_after_set_buf (st : Store) (b : Nat) (nb : NpBuf) (t : Bool)
    (jj ii : Nat) (hb : b < st.length)
    (hjj : jj < (if t then nb.cols else nb.rows))
    (hii : ii < (if t then nb.rows else nb.cols)) :
    mGet (st.set b nb) ⟨b, t⟩ (jj : Int) (ii : Int) =
      some (nb.data.getD (bufPos nb t jj ii) 0) := by
  have hbuf : bufOf (st.set b nb) ⟨b, t⟩ = nb := getD_set_self st b nb _ hb
  cases t
  · unfold mGet
    simp only [show mRows (st.set b nb) ⟨b, false⟩ = nb.rows from by
        show (bufOf (st.set b nb) ⟨b, false⟩).rows = nb.rows
        rw [hbuf],
      show mCols (st.set b nb) ⟨b, false⟩ = nb.cols from by
        show (bufOf (st.set b nb) ⟨b, false⟩).cols = nb.cols
        rw [hbuf]]
    rw [pyIdx_of_lt (show jj < nb.rows from hjj),
        pyIdx_of_lt (show ii < nb.cols from hii)]
    simp only [hbuf]
  · unfold mGet
    simp only [show mRows (st.set b nb) ⟨b, true⟩ = nb.cols from by
        show (bufOf (st.set b nb) ⟨b, true⟩).cols = nb.cols
        rw [hbuf],
      show mCols (st.set b nb) ⟨b, true⟩ = nb.rows from by
        show (bufOf (st.set b nb) ⟨b, true⟩).rows = nb.rows
        rw [hbuf]]
    rw [pyIdx_of_lt (show jj < nb.cols from hjj),
        pyIdx_of_lt (show ii < nb.rows from hii)]
    simp only [hbuf]

/- ===================== claim theorems ===================== -/

/-- C1.  The claim says the predict phase sets P_pre to the standard matrix
product F · P_post · Fᵗ plus Q for arbitrary n×n F and P_post.  It does
not: source line 63 multiplies numpy ndarrays with `*`, the ELEMENTWISE
product.  At F = [[1,1],[0,1]], P_post = I, Q = 0 (reached inside a full
step call on `exPredState`) the code stores P_pre = I, while the spec's
formula yields [[2,1],[1,1]]. -/
theorem predict_covariance_is_elementwise :
    ekfPPre exPredState.FF exPredState.PP_post exPredState.QQ = some (npEye 2) ∧
    (ekfStep id id exPredState [0, 0]).1.PP_pre = some (npEye 2) ∧
    specPPre exPredState.FF exPredState.PP_post exPredState.QQ =
      some (Arr.mk 2 2 [[2, 1], [1, 1]]) ∧
    npEye 2 ≠ Arr.mk 2 2 [[2, 1], [1, 1]] := by
  exact ⟨by rfl, by rfl, by rfl, by decide⟩

/-- C2.  The claim says the update phase computes S⁻¹ = (H·P_pre·Hᵗ+R)⁻¹
and G = P_pre·Hᵗ·S⁻¹ with standard matrix products for arbitrary m×n H.
It does not: in source line 71 only the outer np.dot is a matrix product;
`H * P_pre * H.T + R` and `P_pre * H.T` are elementwise with broadcasting.
At H = [[1,1],[0,1]], P_pre = I, R = 0, the code's gain is I while the
spec's formula gives [[1,-1],[0,1]]. -/
theorem gain_is_elementwise :
    ekfGain (Arr.mk 2 2 [[1, 1], [0, 1]]) (npEye 2) (npZeros 2 2) =
      Except.ok (npEye 2) ∧
    specGain (Arr.mk 2 2 [[1, 1], [0, 1]]) (npEye 2) (npZeros 2 2) =
      some (Arr.mk 2 2 [[1, -1], [0, 1]]) ∧
    npEye 2 ≠ Arr.mk 2 2 [[1, -1], [0, 1]] := by
  exact ⟨by rfl, by rfl, by decide⟩

/-- C3.  Every step call that returns successfully corrected the state by
x ← x + G·(z − h(x)) with h applied to the predicted state f(x) and the
gain applied by a standard matrix product to the innovation column, set
P_post ← (I − G·H)·P_pre with standard matrix products (source lines
74-77), and returned the updated x. -/
theorem step_update_matches_spec (f h : Arr → Arr) (s : EKFState) (z : List ℚ)
    (s' : EKFState) (rv : Arr)
    (hstep : ekfStep f h s z = (s', Except.ok rv))
    (hhr : (h (f s.xx)).rows = z.length) (hhc : (h (f s.xx)).cols = 1) :
    ∃ ppre GG ip,
      ekfPPre s.FF s.PP_post s.QQ = some ppre ∧
      ekfGain s.HH ppre s.RR = Except.ok GG ∧
      npDot GG (specInnov z (h (f s.xx))) = some ip ∧
      npAdd (f s.xx) ip = some s'.xx ∧
      (∃ u w, npDot GG s.HH = some u ∧ npSub s.II u = some w ∧
        npDot w ppre = some s'.PP_post) ∧
      rv = s'.xx := by
  unfold ekfStep at hstep
  split at hstep
  · simp at hstep
  next ppre hP =>
    split at hstep
    next e hG => simp at hstep
    next GG hG =>
      split at hstep
      next hC => simp at hstep
      next x2 hC =>
        split at hstep
        next hPC => simp at hstep
        next pnew hPC =>
          simp only [Prod.mk.injEq, Except.ok.injEq] at hstep
          obtain ⟨hs', hr2⟩ := hstep
          subst hs'
          subst hr2
          unfold ekfCorrect at hC
          split at hC
          next hd => simp at hC
          next d hd =>
            split at hC
            next hgd => simp at hC
            next gd hgd =>
              unfold ekfPostCov at hPC
              split at hPC
              next hu => simp at hPC
              next u hu =>
                split at hPC
                next hw => simp at hPC
                next w hw =>
                  refine ⟨ppre, GG, gd, hP, hG, ?_, ?_,
                    ⟨u, w, hu, hw, hPC⟩, rfl⟩
                  · rw [← innov_transpose z (h (f s.xx)) d hhr hhc hd]
                    exact hgd
                  · exact npIAdd_some hC

/-- C3 witness: the update equations instantiated on the successful 1×1
step of `exRunState` with z = [4]: P_pre = [[1]], G = [[1/2]],
x = [[0]] + [[1/2]]·([[4]] − [[0]]) = [[2]], P_post = [[1/2]], and [[2]]
is returned. -/
theorem step_update_formulas_example :
    ∃ ppre GG ip,
      ekfPPre exRunState.FF exRunState.PP_post exRunState.QQ = some ppre ∧
      ekfGain exRunState.HH ppre exRunState.RR = Except.ok GG ∧
      npDot GG (specInnov [4] (id (id exRunState.xx))) = some ip ∧
      npAdd (id (id exRunState.xx)) ip = some exRunResult.xx ∧
      (∃ u w, npDot GG exRunState.HH = some u ∧
        npSub exRunState.II u = some w ∧
        npDot w ppre = some exRunResult.PP_post) ∧
      Arr.mk 1 1 [[2]] = exRunResult.xx :=
  step_update_matches_spec id id exRunState [4] exRunResult
    (Arr.mk 1 1 [[2]]) rfl rfl rfl

/-- C4.  The claim says a failed step leaves x and P_post exactly as they
were.  It does not: the predict assignments (source lines 60-65) run before
the inversion, so on `exFailState` (H = 0, R = 0 make the inverted matrix
singular) the step raises LinAlgError with x already overwritten by f(x)
([[0]] became [[1]]) and P_post already overwritten by the predicted
covariance ([[1]] became [[4]]). -/
theorem failed_step_keeps_predicted_state :
    (ekfStep (fun _ => Arr.mk 1 1 [[1]]) id exFailState [0]).2 =
      Except.error PyErr.linAlgError ∧
    (ekfStep (fun _ => Arr.mk 1 1 [[1]]) id exFailState [0]).1.xx =
      Arr.mk 1 1 [[1]] ∧
    (ekfStep (fun _ => Arr.mk 1 1 [[1]]) id exFailState [0]).1.PP_post =
      Arr.mk 1 1 [[4]] ∧
    Arr.mk 1 1 [[1]] ≠ exFailState.xx ∧
    Arr.mk 1 1 [[4]] ≠ exFailState.PP_post := by
  exact ⟨by rfl, by rfl, by rfl, by decide, by decide⟩

/-- C5.  The claim says _Matrix.invert reports SingularMatrix to the caller
as a recoverable error and never terminates the process.  It does not: the
except handler in source lines 180-183 prints and calls exit(0), ending the
whole process; on the singular matrix [[1,1],[1,1]] the call never
returns. -/
theorem invert_exits_process_on_singular :
    mInvert (Arr.mk 2 2 [[1, 1], [1, 1]]) = InvResult.processExit := by
  rfl

/-- C6.  The claim says construction fails with DimensionMismatch whenever
n ≤ 0 or m ≤ 0 and when a Jacobian callback returns a wrongly shaped
matrix.  It does not: __init__ (source lines 26-49) performs no validation;
with n = 0 and m = 0 every numpy call succeeds and an engine holding empty
arrays is produced. -/
theorem init_accepts_zero_dims :
    ekfInit 0 0 (1/10) (1/10000) (1/10) (fun _ => Arr.mk 0 0 [])
      (fun _ => Arr.mk 0 0 []) =
    Except.ok
      { xx := Arr.mk 0 1 []
        PP_pre := none
        PP_post := Arr.mk 0 0 []
        FF := Arr.mk 0 0 []
        HH := Arr.mk 0 0 []
        QQ := Arr.mk 0 0 []
        RR := Arr.mk 0 0 []
        II := Arr.mk 0 0 [] } := by
  rfl

/-- C7.  The Jacobian fields FF and HH are populated once, at construction,
from the Jacobian callbacks applied to the initial state (the zero vector),
and no branch of step ever changes them; step does not even receive the
callbacks. -/
theorem jacobians_fixed (f h : Arr → Arr) (s : EKFState) (z : List ℚ) :
    ((ekfStep f h s z).1.FF = s.FF ∧ (ekfStep f h s z).1.HH = s.HH) ∧
    (∀ (n m : Int) (p q r : ℚ) (gF gH : Arr → Arr) (st : EKFState),
      ekfInit n m p q r gF gH = Except.ok st →
      st.FF = gF (npZeros n.toNat 1) ∧ st.HH = gH (npZeros n.toNat 1)) := by
  constructor
  · unfold ekfStep
    repeat' split
    all_goals exact ⟨rfl, rfl⟩
  · intro n m p q r gF gH st hinit
    unfold ekfInit at hinit
    split at hinit
    · exact absurd hinit (by simp)
    · simp only [Except.ok.injEq] at hinit
      subst hinit
      exact ⟨rfl, rfl⟩

/-- C7 witness: the preservation applied to a concrete successful step and
the construction clause applied to a concrete EKF(2, 1) engine. -/
theorem jacobians_fixed_example :
    ((ekfStep id id exRunState [4]).1.FF = exRunState.FF ∧
      (ekfStep id id exRunState [4]).1.HH = exRunState.HH) ∧
    (exInitState.FF = (fun _ => npEye 2) (npZeros (2 : Int).toNat 1) ∧
      exInitState.HH =
        (fun _ => Arr.mk 1 2 [[0, 0]]) (npZeros (2 : Int).toNat 1)) :=
  ⟨(jacobians_fixed id id exRunState [4]).1,
   (jacobians_fixed id id exRunState [4]).2 2 1 (1/10) (1/10000) (1/10)
     (fun _ => npEye 2) (fun _ => Arr.mk 1 2 [[0, 0]]) exInitState rfl⟩

/-- C8.  For n, m > 0 and positive noise parameters, construction sets x to
the n×1 zero vector, P_post to pval·I_n, Q to qval·I_n, R to rval·I_m, and
stores the identity I_n (source lines 36-49). -/
theorem init_fields (n m : Int) (pval qval rval : ℚ) (gF gH : Arr → Arr)
    (st : EKFState)
    (hn : 0 < n) (hm : 0 < m) (hp : 0 < pval) (hq : 0 < qval) (hr : 0 < rval)
    (hinit : ekfInit n m pval qval rval gF gH = Except.ok st) :
    st.xx = npZeros n.toNat 1 ∧
    st.PP_post = specDiagMat n.toNat pval ∧
    st.QQ = specDiagMat n.toNat qval ∧
    st.RR = specDiagMat m.toNat rval ∧
    st.II = npEye n.toNat := by
  unfold ekfInit at hinit
  rw [if_neg (by omega)] at hinit
  simp only [Except.ok.injEq] at hinit
  subst hinit
  exact ⟨rfl, npScalMul_eye _ _, npScalMul_eye _ _, npScalMul_eye _ _, rfl⟩

/-- C8 witness: the construction clause at EKF(2, 1, 0.1, 0.0001, 0.1). -/
theorem init_fields_example :
    exInitState.xx = npZeros (2 : Int).toNat 1 ∧
    exInitState.PP_post = specDiagMat (2 : Int).toNat (1/10) ∧
    exInitState.QQ = specDiagMat (2 : Int).toNat (1/10000) ∧
    exInitState.RR = specDiagMat (1 : Int).toNat (1/10) ∧
    exInitState.II = npEye (2 : Int).toNat :=
  init_fields 2 1 (1/10) (1/10000) (1/10) (fun _ => npEye 2)
    (fun _ => Arr.mk 1 2 [[0, 0]]) exInitState
    (by decide) (by decide) (by decide) (by decide) (by decide) rfl

/-- C9.  _Matrix.transpose returns a view over the source's buffer:
writing element (i, j) of the transposed matrix makes the source's element
(j, i) read back the written value through the shared storage. -/
theorem transpose_shares_storage (st st' : Store) (m : MatRef) (i j : Nat)
    (v : ℚ)
    (hb : m.buf < st.length)
    (hwf : bufWF (bufOf st m))
    (hi : i < mRows st (mTranspose m)) (hj : j < mCols st (mTranspose m))
    (hset : mSet st (mTranspose m) (i : Int) (j : Int) v = some st') :
    mGet st' m (j : Int) (i : Int) = some v := by
  obtain ⟨b, t⟩ := m
  cases t
  · -- source not transposed: writing the view's (i, j) hits buffer cell (j, i)
    have hi' : i < (bufOf st ⟨b, false⟩).cols := hi
    have hj' : j < (bufOf st ⟨b, false⟩).rows := hj
    have hlen : (bufOf st ⟨b, false⟩).data.length =
        (bufOf st ⟨b, false⟩).rows * (bufOf st ⟨b, false⟩).cols := hwf
    unfold mSet at hset
    rw [show mRows st (mTranspose ⟨b, false⟩) = (bufOf st ⟨b, false⟩).cols from rfl,
        show mCols st (mTranspose ⟨b, false⟩) = (bufOf st ⟨b, false⟩).rows from rfl,
        pyIdx_of_lt hi', pyIdx_of_lt hj'] at hset
    simp only [Option.some.injEq] at hset
    subst hset
    show mGet
      (st.set b ⟨(bufOf st ⟨b, false⟩).rows, (bufOf st ⟨b, false⟩).cols,
        (bufOf st ⟨b, false⟩).data.set (j * (bufOf st ⟨b, false⟩).cols + i) v⟩)
      ⟨b, false⟩ (j : Int) (i : Int) = some v
    rw [mGet_after_set_buf st b
      ⟨(bufOf st ⟨b, false⟩).rows, (bufOf st ⟨b, false⟩).cols,
        (bufOf st ⟨b, false⟩).data.set (j * (bufOf st ⟨b, false⟩).cols + i) v⟩
      false j i hb (show j < _ from hj') (show i < _ from hi')]
    exact congrArg some (getD_set_self _ _ _ _
      (by rw [hlen]; exact pos_lt_total hj' hi'))
  · -- source transposed: the view is plain, writing (i, j) hits buffer cell (i, j)
    have hi' : i < (bufOf st ⟨b, true⟩).rows := hi
    have hj' : j < (bufOf st ⟨b, true⟩).cols := hj
    have hlen : (bufOf st ⟨b, true⟩).data.length =
        (bufOf st ⟨b, true⟩).rows * (bufOf st ⟨b, true⟩).cols := hwf
    unfold mSet at hset
    rw [show mRows st (mTranspose ⟨b, true⟩) = (bufOf st ⟨b, true⟩).rows from rfl,
        show mCols st (mTranspose ⟨b, true⟩) = (bufOf st ⟨b, true⟩).cols from rfl,
        pyIdx_of_lt hi', pyIdx_of_lt hj'] at hset
    simp only [Option.some.injEq] at hset
    subst hset
    show mGet
      (st.set b ⟨(bufOf st ⟨b, true⟩).rows, (bufOf st ⟨b, true⟩).cols,
        (bufOf st ⟨b, true⟩).data.set (i * (bufOf st ⟨b, true⟩).cols + j) v⟩)
      ⟨b, true⟩ (j : Int) (i : Int) = some v
    rw [mGet_after_set_buf st b
      ⟨(bufOf st ⟨b, true⟩).rows, (bufOf st ⟨b, true⟩).cols,
        (bufOf st ⟨b, true⟩).data.set (i * (bufOf st ⟨b, true⟩).cols + j) v⟩
      true j i hb (show j < _ from hj') (show i < _ from hi')]
    exact congrArg some (getD_set_self _ _ _ _
      (by rw [hlen]; exact pos_lt_total hi' hj'))

/-- C9 witness: writing 99 at (2, 1) of the transpose of the 2×3 matrix
[[1,2,3],[4,5,6]] makes the source read 99 at (1, 2). -/
theorem transpose_shares_storage_example :
    mGet [NpBuf.mk 2 3 [1, 2, 3, 4, 5, 99]] exMat (1 : Int) (2 : Int) =
      some 99 :=
  transpose_shares_storage exStore [NpBuf.mk 2 3 [1, 2, 3, 4, 5, 99]] exMat
    2 1 99 (by decide) rfl (by decide) (by decide) rfl

/-- C10.  Negative indices within the dimension never raise IndexError on
_Matrix element access: reading or writing at a negative index behaves
exactly like the access at the index counted from the end of the axis. -/
theorem negative_index_access (st : Store) (m : MatRef) (i j : Int) (v : ℚ)
    (hi1 : -(mRows st m : Int) ≤ i) (hi2 : i < 0)
    (hj1 : -(mCols st m : Int) ≤ j) (hj2 : j < 0) :
    mGet st m i j = mGet st m (i + mRows st m) (j + mCols st m) ∧
    (mGet st m i j).isSome = true ∧
    mSet st m i j v = mSet st m (i + mRows st m) (j + mCols st m) v ∧
    (mSet st m i j v).isSome = true := by
  obtain ⟨e1, e2⟩ := pyIdx_neg hi1 hi2
  obtain ⟨f1, f2⟩ := pyIdx_neg hj1 hj2
  unfold mGet mSet
  rw [e1, e2, f1, f2]
  simp

/-- C10 witness: on the 2×3 matrix of `exStore`, access at (-1, -2) is the
access at (1, 1) and both read and write succeed. -/
theorem negative_index_example :
    mGet exStore exMat (-1) (-2) =
      mGet exStore exMat (-1 + mRows exStore exMat)
        (-2 + mCols exStore exMat) ∧
    (mGet exStore exMat (-1) (-2)).isSome = true ∧
    mSet exStore exMat (-1) (-2) 7 =
      mSet exStore exMat (-1 + mRows exStore exMat)
        (-2 + mCols exStore exMat) 7 ∧
    (mSet exStore exMat (-1) (-2) 7).isSome = true :=
  negative_index_access exStore exMat (-1) (-2) 7
    (by decide) (by decide) (by decide) (by decide)

end TinyEKF
